import Mathlib

/-!
Verification of the SHA-System administrative back office (Django app
`sha_system`): reference-code generation (`admin.py` save_model methods),
claim and pre-authorization workflow actions, the contribution uniqueness
constraint and amount floor, and the seeded claim financials.

Strings are modelled by Lean `String`; all string manipulation used by the
source (Python `startswith`, `split('/')[-1]`, `int(...)` on digit strings,
`f'{n:06d}'`, and descending `ORDER BY` on a text column) is embedded by
explicit executable functions on `List Char` below, so that every theorem
can be evaluated on concrete inputs.
-/

/-- The decimal digit character for `d` (meaningful for `d < 10`). -/
def dig (d : Nat) : Char := Char.ofNat (48 + d)

/-- Numeric value of a digit character (meaningful for digit characters). -/
def digitVal (c : Char) : Nat := c.toNat - 48

/-- Boolean test for an ASCII decimal digit character. -/
def isDigitChar (c : Char) : Bool := 48 ≤ c.toNat && c.toNat ≤ 57

/-- Lexicographic strict comparison of character lists by code point; this is
how Python compares `str` values and how the database orders the code
columns that `order_by('-code')` sorts. -/
def charsLt : List Char → List Char → Bool
  | [], [] => false
  | [], _ :: _ => true
  | _ :: _, [] => false
  | a :: as, b :: bs =>
    if a.toNat < b.toNat then true
    else if b.toNat < a.toNat then false
    else charsLt as bs

/-- `hasPfx p l` holds when `p` is an initial run of `l`; models Python
`str.startswith` (first argument is the pattern). -/
def hasPfx : List Char → List Char → Bool
  | [], _ => true
  | _ :: _, [] => false
  | a :: as, b :: bs => if a = b then hasPfx as bs else false

/-- The characters after the last slash of `l`, the whole of `l` when it has
no slash; models Python `s.split('/')[-1]`. -/
def afterLastSlash (l : List Char) : List Char :=
  (l.reverse.takeWhile (fun c => c ≠ '/')).reverse

/-- Value of a character list read as decimal digits. -/
def digitsVal (l : List Char) : Nat :=
  l.foldl (fun a c => a * 10 + digitVal c) 0

/-- Numeric value of a nonempty all-digit character list, `none` otherwise;
models Python `int(s)` on the digit strings the generators produce, with
`none` standing for the `ValueError` raised on any other input. -/
def parseNatChars (l : List Char) : Option Nat :=
  if l.all isDigitChar && !l.isEmpty then some (digitsVal l) else none

/-- Fuel-indexed reversed decimal digits of `n` (least significant first);
structural recursion on the fuel keeps it kernel-reducible. -/
def ddAux : Nat → Nat → List Char
  | 0, _ => []
  | _ + 1, 0 => []
  | f + 1, n + 1 => dig ((n + 1) % 10) :: ddAux f ((n + 1) / 10)

/-- Reversed decimal digits of `n` (empty for 0). -/
def decDigitsRev (n : Nat) : List Char := ddAux n n

/-- Decimal digit characters of `n`, most significant first. -/
def natChars (n : Nat) : List Char :=
  if n = 0 then ['0'] else (decDigitsRev n).reverse

/-- Decimal representation of `n`; models Python `str(n)` and f-string
interpolation of a nonnegative integer. -/
def natStr (n : Nat) : String := String.mk (natChars n)

/-- `n` zero-padded on the left to at least six digits; models Python
`f'{n:06d}'` for nonnegative `n`. -/
def pad6 (n : Nat) : String :=
  let ds := natChars n
  String.mk (List.replicate (6 - ds.length) '0' ++ ds)

/-- String comparison by code points, as the database orders code columns. -/
def codeLt (s t : String) : Bool := charsLt s.data t.data

/-- `codeStartsWith s p` models Python `s.startswith(p)`. -/
def codeStartsWith (s p : String) : Bool := hasPfx p.data s.data

/-- Greatest element of a list of code strings under `codeLt`; models
`order_by('-code').first()`, which returns `none` exactly on an empty
query set. -/
def maxCode : List String → Option String
  | [] => none
  | c :: cs =>
    match maxCode cs with
    | none => some c
    | some m => some (if codeLt m c then c else m)

/-- The year-scoped pattern `f'{FAM}/{year}/'` used by the Member (`SHA`),
PreAuthorization (`AUTH`), Claim (`CLM`) and Payment (`PAY`) admins. -/
def yearPfx (fam : String) (year : Nat) : String :=
  fam ++ "/" ++ natStr year ++ "/"

/-- Year-scoped reference-code issuance, from `MemberAdmin.save_model`
(admin.py lines 139 to 156); the PreAuthorization, Claim and Payment
admins repeat the identical block with their own family constant. The
existing codes are filtered by the current-year pattern, the greatest
matching code (descending string order) has its segment after the last
slash parsed as an integer and incremented, and the sequence starts at 1
when nothing matches; `none` models the exception `int` raises when the
greatest matching code has a non-numeric trailing segment. -/
def nextYearCode (fam : String) (year : Nat) (codes : List String) : Option String :=
  let p := yearPfx fam year
  match maxCode (codes.filter (fun c => codeStartsWith c p)) with
  | none => some (p ++ pad6 1)
  | some last => (parseNatChars (afterLastSlash last.data)).map (fun k => p ++ pad6 (k + 1))

/-- Global (non year-scoped) reference-code issuance, from
`EmployerAdmin.save_model` (admin.py lines 197 to 209); the
HealthcareProvider admin repeats the identical block with `FAC`. Note the
source takes the greatest code over ALL existing codes first and only then
tests whether that single code starts with the family pattern, starting the
sequence at 1 when it does not. -/
def nextGlobalCode (fam : String) (codes : List String) : Option String :=
  let p := fam ++ "/"
  match maxCode codes with
  | none => some (p ++ pad6 1)
  | some last =>
    if codeStartsWith last p then
      (parseNatChars (afterLastSlash last.data)).map (fun k => p ++ pad6 (k + 1))
    else some (p ++ pad6 1)

/-- Reference-code issuance following the words of the specification
(spec section 4.1): find the highest existing code matching the pattern,
parse its trailing numeric suffix, increment, zero-pad to six digits; if no
matching code exists yet, start the sequence at 1. Stated for an arbitrary
pattern so it covers the year-scoped and the global families uniformly. -/
def specNextCode (p : String) (codes : List String) : Option String :=
  match maxCode (codes.filter (fun c => codeStartsWith c p)) with
  | none => some (p ++ pad6 1)
  | some last => (parseNatChars (afterLastSlash last.data)).map (fun k => p ++ pad6 (k + 1))

example : natStr 2025 = "2025" := by decide
example : pad6 3 = "000003" := by decide
example : pad6 1000000 = "1000000" := by decide
example : nextYearCode "SHA" 2025 [] = some "SHA/2025/000001" := by decide
example : nextYearCode "SHA" 2025 ["SHA/2025/000001"] = some "SHA/2025/000002" := by decide
example : nextGlobalCode "EMP" ["EMP/000003", "EMP2024001"] = some "EMP/000001" := by decide
example : specNextCode "EMP/" ["EMP/000003", "EMP2024001"] = some "EMP/000004" := by decide
example : nextYearCode "SHA" 2025 ["SHA/2025/999999"] = some "SHA/2025/1000000" := by decide
example :
    nextYearCode "SHA" 2025 ["SHA/2025/1000000", "SHA/2025/999999"] =
      some "SHA/2025/1000000" := by decide

/-!
Data model records. Monetary `DecimalField` values are modelled by `Rat`
(exact decimal arithmetic), timestamps by abstract `Nat` instants inside
`Option` (`none` is SQL NULL), user references by `String` identifiers, and
status columns by their literal string values from `models.py`.
-/

/-- The fields of `Claim` (models.py lines 382 to 454) touched or framed by
the administrative actions; relational keys other than the claim number are
irrelevant to the claims below and omitted. -/
structure ClaimRec where
  claim_number : String
  status : String
  claimed_amount : Rat
  approved_amount : Option Rat
  rejected_amount : Rat
  copayment_amount : Rat
  review_date : Option Nat
  approval_date : Option Nat
  payment_date : Option Nat
  rejection_reason : String
  query_comments : String
  reviewed_by : Option String
  approved_by : Option String
deriving DecidableEq

/-- Default status of a freshly created claim (models.py line 424). -/
def claimDefaultStatus : String := "SUBMITTED"

/-- Row effect of `ClaimAdmin.mark_under_review` (admin.py lines 542 to
549): `queryset.filter(status='SUBMITTED')` receives
`status='UNDER_REVIEW'` and the review timestamp; other rows are
untouched. -/
def markUnderReviewRow (now : Nat) (c : ClaimRec) : ClaimRec :=
  if c.status = "SUBMITTED" then
    { c with status := "UNDER_REVIEW", review_date := some now }
  else c

/-- Row effect of `ClaimAdmin.approve_claims` (admin.py lines 527 to 535):
`queryset.filter(status='UNDER_REVIEW')` receives `status='APPROVED'`, the
approval timestamp and the acting user; other rows are untouched. -/
def approveClaimRow (now : Nat) (user : String) (c : ClaimRec) : ClaimRec :=
  if c.status = "UNDER_REVIEW" then
    { c with status := "APPROVED", approval_date := some now, approved_by := some user }
  else c

/-- Row effect of `ClaimAdmin.reject_claims` (admin.py lines 537 to 540):
`queryset.exclude(status='PAID')` receives `status='REJECTED'`; PAID rows
are untouched, and no other column (in particular not `rejection_reason`)
is written. -/
def rejectClaimRow (c : ClaimRec) : ClaimRec :=
  if c.status = "PAID" then c else { c with status := "REJECTED" }

/-- The claim-side database state an admin action runs against: the claims
table and the claim-items table (`ClaimItem` rows are a separate table that
a `queryset.update` on `claims` never touches). -/
structure AdminState where
  claims : List ClaimRec
  claim_items : List String
deriving DecidableEq

/-- The bulk `approve_claims` action over a selection: every selected claim
passes through `approveClaimRow`, the rest of the state is untouched, and
the reported count is the number of selected rows in `UNDER_REVIEW` (the
value `queryset.update` returns). -/
def approveClaimsAction (now : Nat) (user : String) (sel : String → Bool)
    (st : AdminState) : AdminState × Nat :=
  ({ st with
      claims := st.claims.map (fun c =>
        if sel c.claim_number then approveClaimRow now user c else c) },
   (st.claims.filter (fun c => sel c.claim_number && c.status == "UNDER_REVIEW")).length)

/-- The fields of `PreAuthorization` (models.py lines 330 to 377) relevant
to the approval workflow. -/
structure PreAuthRec where
  authorization_number : String
  status : String
  estimated_cost : Rat
  approved_amount : Option Rat
  approval_date : Option Nat
  approved_by : Option String
  rejection_reason : String
  valid_until : Option Nat
deriving DecidableEq

/-- Row effect of `PreAuthorizationAdmin.approve_preauthorization`
(admin.py lines 429 to 437): `queryset.filter(status='PENDING')` receives
`status='APPROVED'`, the approval timestamp and the acting user; no other
column is written and other rows are untouched. -/
def approvePreauthRow (now : Nat) (user : String) (p : PreAuthRec) : PreAuthRec :=
  if p.status = "PENDING" then
    { p with status := "APPROVED", approval_date := some now, approved_by := some user }
  else p

/-- The bulk pre-authorization approve action over a selection, returning
the updated rows and the count `queryset.update` reports (the number of
PENDING rows in the selection). -/
def approvePreauthBulk (now : Nat) (user : String) (qs : List PreAuthRec) :
    List PreAuthRec × Nat :=
  (qs.map (approvePreauthRow now user),
   (qs.filter (fun p => p.status == "PENDING")).length)

/-- The fields of `Contribution` (models.py lines 135 to 181) relevant to
the uniqueness constraint and the amount floor; `contribution_month` is an
abstract first-of-month date identifier. -/
structure ContributionRec where
  member : String
  contribution_month : Nat
  gross_salary : Option Rat
  contribution_amount : Rat
  contribution_rate : Rat
  transaction_reference : String
  status : String
deriving DecidableEq

/-- Default contribution rate, percent (models.py line 159). -/
def defaultContributionRate : Rat := 275 / 100

/-- A contributions table satisfies the `unique_together` constraint of
`Contribution.Meta` (models.py line 175): no two rows share the
(member, contribution_month) pair. -/
def contributionUniqueOk (db : List ContributionRec) : Prop :=
  db.Pairwise (fun a b =>
    ¬(a.member = b.member ∧ a.contribution_month = b.contribution_month))

/-- Inserting a contribution row under the `unique_together ['member',
'contribution_month']` constraint: the write fails (`none`, the database
uniqueness violation) when an existing row has the same member and month,
and otherwise adds the row. -/
def insertContribution (db : List ContributionRec) (c : ContributionRec) :
    Option (List ContributionRec) :=
  if db.any (fun d => d.member == c.member && d.contribution_month == c.contribution_month) then
    none
  else some (c :: db)

/-- The contribution amount computed by the repository from a gross salary
(seed_data.py line 593): `max(Decimal('300.00'), gross_salary *
Decimal('0.0275'))`. -/
def seedContributionAmount (gross : Rat) : Rat :=
  max (300 : Rat) (gross * (275 / 10000))

/-- The validation-layer floor on `contribution_amount`
(`MinValueValidator(Decimal('300.00'))`, models.py line 158): a value
passes validation exactly when it is at least 300. -/
def contributionAmountValid (amt : Rat) : Bool := decide ((300 : Rat) ≤ amt)

/-- The fields of `ClaimItem` (models.py lines 457 to 479) relevant to the
financial claims; `quantity` is an `IntegerField`. -/
structure ClaimItemRec where
  quantity : Int
  unit_price : Rat
  total_amount : Rat
  approved_quantity : Option Int
  approved_amount : Option Rat
deriving DecidableEq

/-- A claim item as created by the seeding path (seed_data.py lines 727 to
740): `unit_price` is the standard tariff of the chosen service,
`total_amount = service.standard_tariff * quantity`, and the
status-dependent randomly drawn approved quantity and amount are abstracted
into parameters. -/
def mkSeedClaimItem (tariff : Rat) (q : Int) (appQty : Option Int)
    (appAmt : Option Rat) : ClaimItemRec :=
  { quantity := q, unit_price := tariff, total_amount := tariff * (q : Rat),
    approved_quantity := appQty, approved_amount := appAmt }

/-- The claimed amount of a seeded claim (seed_data.py line 675):
`sum(s.standard_tariff for s in claim_services)`, the sum of the chosen
standard tariffs, independent of the item quantities drawn later. -/
def seedClaimedAmount (tariffs : List Rat) : Rat := tariffs.sum

example : seedContributionAmount 10000 = 300 := by
  norm_num [seedContributionAmount, max_def]
example : contributionAmountValid 275 = false := by
  norm_num [contributionAmountValid]
example : (mkSeedClaimItem 1500 2 none none).total_amount = 3000 := by
  norm_num [mkSeedClaimItem]
example : seedClaimedAmount [1500, 2000] = 3500 := by
  norm_num [seedClaimedAmount]

/-!
Toolkit lemmas about the character-level embedding, used to settle the
reference-code claims.
-/

theorem strData_append (s t : String) : (s ++ t).data = s.data ++ t.data := by
  cases s; cases t; rfl

theorem digitVal_dig {d : Nat} (h : d < 10) : digitVal (dig d) = d := by
  interval_cases d <;> decide

theorem isDigitChar_dig {d : Nat} (h : d < 10) : isDigitChar (dig d) = true := by
  interval_cases d <;> decide

theorem isDigitChar_iff {c : Char} :
    isDigitChar c = true ↔ 48 ≤ c.toNat ∧ c.toNat ≤ 57 := by
  simp [isDigitChar]

theorem digit_ne_slash {c : Char} (h : isDigitChar c = true) : c ≠ '/' := by
  intro e
  subst e
  exact absurd h (by decide)

theorem ddAux_fuel (f1 : Nat) :
    ∀ f2 n, n ≤ f1 → n ≤ f2 → ddAux f1 n = ddAux f2 n := by
  induction f1 with
  | zero =>
    intro f2 n h1 _
    have hn : n = 0 := Nat.le_zero.mp h1
    subst hn
    cases f2 <;> rfl
  | succ f ih =>
    intro f2 n h1 h2
    cases n with
    | zero => cases f2 <;> rfl
    | succ m =>
      cases f2 with
      | zero => omega
      | succ g =>
        simp only [ddAux]
        congr 1
        exact ih g ((m + 1) / 10) (by omega) (by omega)

theorem decDigitsRev_eq {n : Nat} (h : n ≠ 0) :
    decDigitsRev n = dig (n % 10) :: decDigitsRev (n / 10) := by
  cases n with
  | zero => exact absurd rfl h
  | succ m =>
    show ddAux (m + 1) (m + 1) = _
    simp only [ddAux, decDigitsRev]
    congr 1
    exact ddAux_fuel m ((m + 1) / 10) ((m + 1) / 10) (by omega) (by omega)

theorem decDigitsRev_zero : decDigitsRev 0 = [] := rfl

theorem decDigitsRev_digits :
    ∀ n, ∀ c ∈ decDigitsRev n, isDigitChar c = true := by
  intro n
  induction n using Nat.strong_induction_on with
  | _ n ih =>
    by_cases h : n = 0
    · subst h; intro c hc; simp [decDigitsRev_zero] at hc
    · rw [decDigitsRev_eq h]
      intro c hc
      rcases List.mem_cons.mp hc with rfl | hc
      · exact isDigitChar_dig (Nat.mod_lt n (by decide))
      · exact ih (n / 10) (Nat.div_lt_self (Nat.pos_of_ne_zero h) (by decide)) c hc

theorem natChars_digits {n : Nat} : ∀ c ∈ natChars n, isDigitChar c = true := by
  intro c hc
  by_cases h : n = 0
  · subst h
    simp only [natChars, if_true, List.mem_singleton, reduceIte] at hc
    subst hc; decide
  · simp only [natChars, if_neg h, List.mem_reverse] at hc
    exact decDigitsRev_digits n c hc

theorem natChars_ne_nil {n : Nat} : natChars n ≠ [] := by
  by_cases h : n = 0
  · subst h; simp [natChars]
  · simp only [natChars, if_neg h, ne_eq, List.reverse_eq_nil_iff]
    rw [decDigitsRev_eq h]
    simp

theorem digitsVal_foldl (l : List Char) :
    ∀ a, l.foldl (fun a c => a * 10 + digitVal c) a =
      a * 10 ^ l.length + digitsVal l := by
  induction l with
  | nil => intro a; simp [digitsVal]
  | cons c cs ih =>
    intro a
    have hcs : digitsVal (c :: cs) = digitVal c * 10 ^ cs.length + digitsVal cs := by
      show List.foldl _ (0 * 10 + digitVal c) cs = _
      rw [ih (0 * 10 + digitVal c)]
      ring_nf
    show List.foldl _ (a * 10 + digitVal c) cs = _
    rw [ih (a * 10 + digitVal c), hcs, List.length_cons, pow_succ]
    ring

theorem digitsVal_cons (c : Char) (cs : List Char) :
    digitsVal (c :: cs) = digitVal c * 10 ^ cs.length + digitsVal cs := by
  show List.foldl _ (0 * 10 + digitVal c) cs = _
  rw [digitsVal_foldl cs (0 * 10 + digitVal c)]
  ring_nf

theorem digitsVal_append (l1 l2 : List Char) :
    digitsVal (l1 ++ l2) = digitsVal l1 * 10 ^ l2.length + digitsVal l2 := by
  show List.foldl _ _ (l1 ++ l2) = _
  rw [List.foldl_append]
  exact digitsVal_foldl l2 _

theorem digitsVal_lt {l : List Char} (h : ∀ c ∈ l, isDigitChar c = true) :
    digitsVal l < 10 ^ l.length := by
  induction l with
  | nil => simp [digitsVal]
  | cons c cs ih =>
    have h9 : digitVal c ≤ 9 := by
      have := (isDigitChar_iff.mp (h c (List.mem_cons_self c cs))).2
      unfold digitVal; omega
    have hv : digitsVal cs < 10 ^ cs.length := ih (fun d hd => h d (List.mem_cons_of_mem c hd))
    rw [digitsVal_cons, List.length_cons]
    calc digitVal c * 10 ^ cs.length + digitsVal cs
        < digitVal c * 10 ^ cs.length + 10 ^ cs.length := Nat.add_lt_add_left hv _
      _ ≤ 9 * 10 ^ cs.length + 10 ^ cs.length :=
          Nat.add_le_add_right (Nat.mul_le_mul_right _ h9) _
      _ = 10 ^ cs.length * 10 := by ring
      _ = 10 ^ (cs.length + 1) := (pow_succ 10 cs.length).symm

theorem digitsVal_natChars : ∀ n, digitsVal (natChars n) = n := by
  intro n
  induction n using Nat.strong_induction_on with
  | _ n ih =>
    by_cases h : n = 0
    · subst h; decide
    · by_cases h10 : n / 10 = 0
      · have hlt : n < 10 := by omega
        have : natChars n = [dig (n % 10)] := by
          simp [natChars, if_neg h, decDigitsRev_eq h, h10, decDigitsRev_zero]
        rw [this]
        have : digitsVal [dig (n % 10)] = digitVal (dig (n % 10)) := by
          simp [digitsVal_cons, digitsVal]
        rw [this, digitVal_dig (Nat.mod_lt n (by decide))]
        omega
      · have hsplit : natChars n = natChars (n / 10) ++ [dig (n % 10)] := by
          simp only [natChars, if_neg h, if_neg h10, decDigitsRev_eq h, List.reverse_cons]
        rw [hsplit, digitsVal_append]
        have hv : digitsVal [dig (n % 10)] = digitVal (dig (n % 10)) := by
          simp [digitsVal_cons, digitsVal]
        rw [hv, digitVal_dig (Nat.mod_lt n (by decide)),
          ih (n / 10) (Nat.div_lt_self (Nat.pos_of_ne_zero h) (by decide))]
        simp only [List.length_singleton, pow_one]
        omega

theorem pad6_data (n : Nat) :
    (pad6 n).data = List.replicate (6 - (natChars n).length) '0' ++ natChars n := rfl

theorem pad6_digits {n : Nat} : ∀ c ∈ (pad6 n).data, isDigitChar c = true := by
  intro c hc
  rw [pad6_data] at hc
  rcases List.mem_append.mp hc with hc | hc
  · rw [List.eq_of_mem_replicate hc]; decide
  · exact natChars_digits c hc

theorem digitsVal_replicate_zero (k : Nat) :
    digitsVal (List.replicate k '0') = 0 := by
  induction k with
  | zero => rfl
  | succ m ih =>
    rw [List.replicate_succ, digitsVal_cons, ih]
    have h0 : digitVal '0' = 0 := by decide
    rw [h0]
    simp

theorem digitsVal_pad6 (n : Nat) : digitsVal (pad6 n).data = n := by
  rw [pad6_data, digitsVal_append, digitsVal_replicate_zero, digitsVal_natChars]
  simp

theorem pad6_ne_nil (n : Nat) : (pad6 n).data ≠ [] := by
  rw [pad6_data]
  intro h
  rcases List.append_eq_nil.mp h with ⟨_, h2⟩
  exact natChars_ne_nil h2

theorem parseNatChars_pad6 (n : Nat) : parseNatChars (pad6 n).data = some n := by
  unfold parseNatChars
  rw [if_pos, digitsVal_pad6]
  rw [Bool.and_eq_true, List.all_eq_true]
  constructor
  · exact fun c hc => pad6_digits c hc
  · rcases h : (pad6 n).data with _ | ⟨c, cs⟩
    · exact absurd h (pad6_ne_nil n)
    · simp

theorem pad6_inj {m n : Nat} (h : pad6 m = pad6 n) : m = n := by
  have := parseNatChars_pad6 m
  rw [h, parseNatChars_pad6] at this
  exact (Option.some_inj.mp this).symm

theorem decDigitsRev_len : ∀ k n, n < 10 ^ k → (decDigitsRev n).length ≤ k := by
  intro k
  induction k with
  | zero =>
    intro n h
    have : n = 0 := by simpa using h
    subst this
    simp [decDigitsRev_zero]
  | succ j ih =>
    intro n h
    by_cases hn : n = 0
    · subst hn; simp [decDigitsRev_zero]
    · rw [decDigitsRev_eq hn, List.length_cons]
      have hdiv : n / 10 < 10 ^ j := by
        rw [Nat.div_lt_iff_lt_mul (by decide)]
        calc n < 10 ^ (j + 1) := h
          _ = 10 ^ j * 10 := pow_succ 10 j
      exact Nat.succ_le_succ (ih (n / 10) hdiv)

theorem natChars_len_le {n : Nat} (h : n < 10 ^ 6) : (natChars n).length ≤ 6 := by
  by_cases hn : n = 0
  · subst hn; simp [natChars]
  · simp only [natChars, if_neg hn, List.length_reverse]
    exact decDigitsRev_len 6 n h

theorem pad6_len {n : Nat} (h : n < 10 ^ 6) : (pad6 n).data.length = 6 := by
  rw [pad6_data, List.length_append, List.length_replicate]
  have := natChars_len_le h
  omega

theorem charsLt_append_left :
    ∀ (p a b : List Char), charsLt (p ++ a) (p ++ b) = charsLt a b := by
  intro p
  induction p with
  | nil => intro a b; rfl
  | cons c cs ih =>
    intro a b
    show charsLt (c :: (cs ++ a)) (c :: (cs ++ b)) = charsLt a b
    simp only [charsLt, Nat.lt_irrefl, if_false]
    exact ih a b

theorem charsLt_digits_iff :
    ∀ (ds es : List Char), ds.length = es.length →
      (∀ c ∈ ds, isDigitChar c = true) → (∀ c ∈ es, isDigitChar c = true) →
      (charsLt ds es = true ↔ digitsVal ds < digitsVal es) := by
  intro ds
  induction ds with
  | nil =>
    intro es hlen _ _
    have : es = [] := (List.eq_nil_of_length_eq_zero hlen.symm)
    subst this
    simp [charsLt, digitsVal]
  | cons a as ih =>
    intro es hlen hd he
    rcases es with _ | ⟨b, bs⟩
    · simp only [List.length_cons, List.length_nil] at hlen; omega
    · have hlen2 : as.length = bs.length := by simpa using hlen
      have ha : isDigitChar a = true := hd a (List.mem_cons_self a as)
      have hb : isDigitChar b = true := he b (List.mem_cons_self b bs)
      have ha48 := isDigitChar_iff.mp ha
      have hb48 := isDigitChar_iff.mp hb
      have has : ∀ c ∈ as, isDigitChar c = true :=
        fun c hc => hd c (List.mem_cons_of_mem a hc)
      have hbs : ∀ c ∈ bs, isDigitChar c = true :=
        fun c hc => he c (List.mem_cons_of_mem b hc)
      have hvas : digitsVal as < 10 ^ as.length := digitsVal_lt has
      have hvbs : digitsVal bs < 10 ^ bs.length := digitsVal_lt hbs
      rw [digitsVal_cons, digitsVal_cons, ← hlen2]
      show (if a.toNat < b.toNat then true
        else if b.toNat < a.toNat then false else charsLt as bs) = true ↔ _
      by_cases hab : a.toNat < b.toNat
      · rw [if_pos hab]
        have hdv : digitVal a + 1 ≤ digitVal b := by unfold digitVal; omega
        simp only [true_iff]
        calc digitVal a * 10 ^ as.length + digitsVal as
            < digitVal a * 10 ^ as.length + 10 ^ as.length := Nat.add_lt_add_left hvas _
          _ = (digitVal a + 1) * 10 ^ as.length := by ring
          _ ≤ digitVal b * 10 ^ as.length := Nat.mul_le_mul_right _ hdv
          _ ≤ digitVal b * 10 ^ as.length + digitsVal bs := Nat.le_add_right _ _
      · rw [if_neg hab]
        by_cases hba : b.toNat < a.toNat
        · rw [if_pos hba]
          have hdv : digitVal b + 1 ≤ digitVal a := by unfold digitVal; omega
          have hcalc : digitVal b * 10 ^ as.length + digitsVal bs
              < digitVal a * 10 ^ as.length + digitsVal as := by
            calc digitVal b * 10 ^ as.length + digitsVal bs
                < digitVal b * 10 ^ as.length + 10 ^ as.length := by
                  rw [← hlen2] at hvbs; exact Nat.add_lt_add_left hvbs _
              _ = (digitVal b + 1) * 10 ^ as.length := by ring
              _ ≤ digitVal a * 10 ^ as.length := Nat.mul_le_mul_right _ hdv
              _ ≤ digitVal a * 10 ^ as.length + digitsVal as := Nat.le_add_right _ _
          exact iff_of_false (by simp) (lt_asymm hcalc)
        · rw [if_neg hba]
          have hveq : digitVal a = digitVal b := by unfold digitVal; omega
          rw [hveq, ih bs hlen2 has hbs]
          omega

theorem codeLt_pad6_iff {m n : Nat} (p : String) (hm : m < 10 ^ 6) (hn : n < 10 ^ 6) :
    (codeLt (p ++ pad6 m) (p ++ pad6 n) = true ↔ m < n) := by
  unfold codeLt
  rw [strData_append, strData_append, charsLt_append_left]
  have := charsLt_digits_iff (pad6 m).data (pad6 n).data
    (by rw [pad6_len hm, pad6_len hn])
    (fun c hc => pad6_digits c hc) (fun c hc => pad6_digits c hc)
  rw [this, digitsVal_pad6, digitsVal_pad6]

theorem hasPfx_append_self : ∀ (p x : List Char), hasPfx p (p ++ x) = true := by
  intro p
  induction p with
  | nil => intro x; rfl
  | cons c cs ih =>
    intro x
    show (if c = c then hasPfx cs (cs ++ x) else false) = true
    rw [if_pos rfl]
    exact ih x

theorem codeStartsWith_append (p x : String) : codeStartsWith (p ++ x) p = true := by
  unfold codeStartsWith
  rw [strData_append]
  exact hasPfx_append_self p.data x.data

theorem takeWhile_all_append {p : Char → Bool} :
    ∀ (l1 l2 : List Char), (∀ c ∈ l1, p c = true) →
      (l1 ++ l2).takeWhile p = l1 ++ l2.takeWhile p := by
  intro l1
  induction l1 with
  | nil => intro l2 _; rfl
  | cons c cs ih =>
    intro l2 h
    rw [List.cons_append, List.takeWhile_cons, h c (List.mem_cons_self c cs)]
    simp only [reduceIte, List.cons_append, List.cons.injEq, true_and]
    exact ih l2 (fun d hd => h d (List.mem_cons_of_mem c hd))

theorem afterLastSlash_append (l1 x : List Char) (hx : ∀ c ∈ x, c ≠ '/') :
    afterLastSlash ((l1 ++ ['/']) ++ x) = x := by
  unfold afterLastSlash
  rw [List.reverse_append, List.reverse_append]
  have h1 : ((['/'] : List Char).reverse ++ l1.reverse) = '/' :: l1.reverse := rfl
  rw [h1]
  have h2 : ∀ c ∈ x.reverse, (fun c => decide (c ≠ '/')) c = true := by
    intro c hc
    exact decide_eq_true (hx c (List.mem_reverse.mp hc))
  rw [takeWhile_all_append x.reverse ('/' :: l1.reverse) h2]
  have h3 : List.takeWhile (fun c => decide (c ≠ '/')) ('/' :: l1.reverse) = [] := by
    rw [List.takeWhile_cons]
    simp
  rw [h3, List.append_nil, List.reverse_reverse]

theorem parse_pfx_pad6 {p : String} (l1 : List Char) (hp : p.data = l1 ++ ['/'])
    (s : Nat) : parseNatChars (afterLastSlash (p ++ pad6 s).data) = some s := by
  rw [strData_append, hp]
  rw [afterLastSlash_append l1 (pad6 s).data
    (fun c hc => digit_ne_slash (pad6_digits c hc))]
  exact parseNatChars_pad6 s

theorem yearPfx_shape (fam : String) (year : Nat) :
    (yearPfx fam year).data = (fam.data ++ '/' :: (natStr year).data) ++ ['/'] := by
  unfold yearPfx
  rw [strData_append, strData_append, strData_append]
  have h1 : ("/" : String).data = ['/'] := rfl
  rw [h1]
  simp

theorem maxCode_mem : ∀ (l : List String) (m : String), maxCode l = some m → m ∈ l := by
  intro l
  induction l with
  | nil => intro m h; exact absurd h (by simp [maxCode])
  | cons c cs ih =>
    intro m h
    unfold maxCode at h
    rcases hm : maxCode cs with _ | m2
    · rw [hm] at h
      simp only [Option.some_inj] at h
      exact h ▸ List.mem_cons_self c cs
    · rw [hm] at h
      simp only [Option.some_inj] at h
      by_cases hlt : codeLt m2 c = true
      · rw [if_pos hlt] at h
        exact h ▸ List.mem_cons_self c cs
      · rw [if_neg hlt] at h
        exact h ▸ List.mem_cons_of_mem c (ih m2 hm)

/-- Greatest element of a list of naturals (0 on the empty list). -/
def natMaxL (l : List Nat) : Nat := l.foldr max 0

theorem natMaxL_le {l : List Nat} : ∀ s ∈ l, s ≤ natMaxL l := by
  induction l with
  | nil => intro s hs; exact absurd hs (List.not_mem_nil s)
  | cons a as ih =>
    intro s hs
    rcases List.mem_cons.mp hs with rfl | hs
    · exact le_max_left _ _
    · exact le_trans (ih s hs) (le_max_right _ _)

theorem natMaxL_mem {l : List Nat} (h : l ≠ []) : natMaxL l ∈ l := by
  induction l with
  | nil => exact absurd rfl h
  | cons a as ih =>
    by_cases has : as = []
    · subst has
      simp [natMaxL]
    · show max a (natMaxL as) ∈ a :: as
      rcases Nat.le_total a (natMaxL as) with hle | hle
      · rw [max_eq_right hle]
        exact List.mem_cons_of_mem a (ih has)
      · rw [max_eq_left hle]
        exact List.mem_cons_self a as

theorem maxCode_canonical (p : String) :
    ∀ (S : List Nat), S ≠ [] → (∀ s ∈ S, s < 10 ^ 6) →
      maxCode (S.map (fun s => p ++ pad6 s)) = some (p ++ pad6 (natMaxL S)) := by
  intro S
  induction S with
  | nil => intro h _; exact absurd rfl h
  | cons a as ih =>
    intro _ hlt
    by_cases has : as = []
    · subst has
      show maxCode [p ++ pad6 a] = some (p ++ pad6 (natMaxL [a]))
      have : natMaxL [a] = a := by simp [natMaxL]
      rw [this]
      rfl
    · have hlt2 : ∀ s ∈ as, s < 10 ^ 6 :=
        fun s hs => hlt s (List.mem_cons_of_mem a hs)
      have hrec := ih has hlt2
      have hM : natMaxL as < 10 ^ 6 := hlt2 _ (natMaxL_mem has)
      have ha6 : a < 10 ^ 6 := hlt a (List.mem_cons_self a as)
      have hnm : natMaxL (a :: as) = max a (natMaxL as) := rfl
      have hstep : maxCode ((p ++ pad6 a) :: as.map (fun s => p ++ pad6 s)) =
          some (if codeLt (p ++ pad6 (natMaxL as)) (p ++ pad6 a)
            then p ++ pad6 a else p ++ pad6 (natMaxL as)) := by
        unfold maxCode
        rw [hrec]
      rw [List.map_cons, hstep]
      by_cases hcmp : natMaxL as < a
      · have hc : codeLt (p ++ pad6 (natMaxL as)) (p ++ pad6 a) = true :=
          (codeLt_pad6_iff p hM ha6).mpr hcmp
        rw [if_pos hc, hnm, max_eq_left (le_of_lt hcmp)]
      · have hc : ¬(codeLt (p ++ pad6 (natMaxL as)) (p ++ pad6 a) = true) :=
          fun h => hcmp ((codeLt_pad6_iff p hM ha6).mp h)
        rw [if_neg hc, hnm, max_eq_right (not_lt.mp hcmp)]

theorem strData_inj {s t : String} (h : s.data = t.data) : s = t := by
  cases s with
  | mk d1 =>
    cases t with
    | mk d2 => exact congrArg String.mk h

theorem append_pad6_inj {p : String} {m n : Nat}
    (h : p ++ pad6 m = p ++ pad6 n) : m = n := by
  have hd : (p ++ pad6 m).data = (p ++ pad6 n).data := by rw [h]
  rw [strData_append, strData_append] at hd
  have := List.append_cancel_left hd
  exact pad6_inj (strData_inj this)

theorem nextYearCode_canonical (fam : String) (year : Nat) (codes : List String)
    (S : List Nat)
    (hfilter : codes.filter (fun c => codeStartsWith c (yearPfx fam year)) =
      S.map (fun s => yearPfx fam year ++ pad6 s))
    (hbound : ∀ s ∈ S, s < 10 ^ 6) :
    nextYearCode fam year codes =
      some (yearPfx fam year ++ pad6 (if S = [] then 1 else natMaxL S + 1)) := by
  have hdef : nextYearCode fam year codes =
      match maxCode (codes.filter (fun c => codeStartsWith c (yearPfx fam year))) with
      | none => some (yearPfx fam year ++ pad6 1)
      | some last => (parseNatChars (afterLastSlash last.data)).map
          (fun k => yearPfx fam year ++ pad6 (k + 1)) := rfl
  rw [hdef, hfilter]
  by_cases hS : S = []
  · subst hS
    rw [if_pos rfl]
    rfl
  · rw [if_neg hS, maxCode_canonical (yearPfx fam year) S hS hbound]
    show Option.map _ (parseNatChars (afterLastSlash
      ((yearPfx fam year ++ pad6 (natMaxL S)).data))) = _
    rw [parse_pfx_pad6 (fam.data ++ '/' :: (natStr year).data)
      (yearPfx_shape fam year) (natMaxL S)]
    rfl

theorem nextYearCode_fresh_aux (fam : String) (year : Nat) (codes : List String)
    (S : List Nat)
    (hfilter : codes.filter (fun c => codeStartsWith c (yearPfx fam year)) =
      S.map (fun s => yearPfx fam year ++ pad6 s))
    (hbound : ∀ s ∈ S, s < 999999) :
    ∃ c1 c2 : String,
      nextYearCode fam year codes = some c1 ∧ c1 ∉ codes ∧
      nextYearCode fam year (c1 :: codes) = some c2 ∧ c1 ≠ c2 := by
  have ten6 : (10 : Nat) ^ 6 = 1000000 := by norm_num
  have hb6 : ∀ s ∈ S, s < 10 ^ 6 := by
    intro s hs
    have := hbound s hs
    omega
  refine ⟨yearPfx fam year ++ pad6 (if S = [] then 1 else natMaxL S + 1),
    yearPfx fam year ++ pad6 ((if S = [] then 1 else natMaxL S + 1) + 1),
    nextYearCode_canonical fam year codes S hfilter hb6, ?_, ?_, ?_⟩
  · intro hmem
    have hstart : codeStartsWith
        (yearPfx fam year ++ pad6 (if S = [] then 1 else natMaxL S + 1))
        (yearPfx fam year) = true := codeStartsWith_append _ _
    have hin : (yearPfx fam year ++ pad6 (if S = [] then 1 else natMaxL S + 1)) ∈
        codes.filter (fun c => codeStartsWith c (yearPfx fam year)) :=
      List.mem_filter.mpr ⟨hmem, hstart⟩
    rw [hfilter] at hin
    rcases List.mem_map.mp hin with ⟨s, hsS, hseq⟩
    have hks : s = (if S = [] then 1 else natMaxL S + 1) := append_pad6_inj hseq
    by_cases hS : S = []
    · subst hS
      exact absurd hsS (List.not_mem_nil s)
    · rw [if_neg hS] at hks
      have := natMaxL_le s hsS
      omega
  · have hfilter2 :
        ((yearPfx fam year ++ pad6 (if S = [] then 1 else natMaxL S + 1)) :: codes).filter
            (fun c => codeStartsWith c (yearPfx fam year)) =
          ((if S = [] then 1 else natMaxL S + 1) :: S).map
            (fun s => yearPfx fam year ++ pad6 s) := by
      rw [List.filter_cons, codeStartsWith_append]
      simp only [reduceIte, List.map_cons]
      rw [hfilter]
    have hbound2 : ∀ s ∈ (if S = [] then 1 else natMaxL S + 1) :: S, s < 10 ^ 6 := by
      intro s hs
      rcases List.mem_cons.mp hs with rfl | hs
      · by_cases hS : S = []
        · rw [if_pos hS]; omega
        · rw [if_neg hS]
          have := hbound _ (natMaxL_mem hS)
          omega
      · exact hb6 s hs
    have h2 := nextYearCode_canonical fam year _ _ hfilter2 hbound2
    rw [if_neg (List.cons_ne_nil _ _)] at h2
    have hmax : natMaxL ((if S = [] then 1 else natMaxL S + 1) :: S) =
        (if S = [] then 1 else natMaxL S + 1) := by
      show max _ (natMaxL S) = _
      by_cases hS : S = []
      · subst hS
        show max _ 0 = _
        simp
      · rw [if_neg hS]
        exact max_eq_left (Nat.le_succ _)
    rw [hmax] at h2
    exact h2
  · intro h
    have := append_pad6_inj h
    omega

/-- C2: for the year-scoped reference-code families the claim that two
sequentially issued codes are never equal FAILS once the yearly sequence
reaches 1000000: with `SHA/2025/999999` present, the issued code is
`SHA/2025/1000000` (seven digits), and because the zero-padded strings are
compared lexicographically, `SHA/2025/999999` still sorts highest, so the
very next issuance produces `SHA/2025/1000000` a second time. -/
theorem yearCode_sequential_counterexample :
    nextYearCode "SHA" 2025 ["SHA/2025/999999"] = some "SHA/2025/1000000" ∧
    nextYearCode "SHA" 2025 ["SHA/2025/1000000", "SHA/2025/999999"] =
      some "SHA/2025/1000000" := by
  constructor
  · decide
  · decide

/-- C2 (amended): over any database state whose codes for the current year
form a set of well-formed zero-padded codes with suffixes below 999999,
sequential issuance produces a fresh code and two sequentially issued codes
are never equal; the first code issued in a year with no matching codes is
number 000001 regardless of other years; and three Members issued in year
2025 with no prior Members that year receive `SHA/2025/000001`,
`SHA/2025/000002`, `SHA/2025/000003`. -/
theorem yearCode_sequential_amended :
    (∀ (fam : String) (year : Nat) (codes : List String) (S : List Nat),
      codes.filter (fun c => codeStartsWith c (yearPfx fam year)) =
        S.map (fun s => yearPfx fam year ++ pad6 s) →
      (∀ s ∈ S, s < 999999) →
      ∃ c1 c2 : String,
        nextYearCode fam year codes = some c1 ∧ c1 ∉ codes ∧
        nextYearCode fam year (c1 :: codes) = some c2 ∧ c1 ≠ c2) ∧
    (∀ (fam : String) (year : Nat) (codes : List String),
      (∀ c ∈ codes, codeStartsWith c (yearPfx fam year) = false) →
      nextYearCode fam year codes = some (yearPfx fam year ++ pad6 1)) ∧
    (nextYearCode "SHA" 2025 [] = some "SHA/2025/000001" ∧
      nextYearCode "SHA" 2025 ["SHA/2025/000001"] = some "SHA/2025/000002" ∧
      nextYearCode "SHA" 2025 ["SHA/2025/000002", "SHA/2025/000001"] =
        some "SHA/2025/000003") := by
  refine ⟨nextYearCode_fresh_aux, ?_, by decide, by decide, by decide⟩
  intro fam year codes hnone
  have hfilter : codes.filter (fun c => codeStartsWith c (yearPfx fam year)) =
      ([] : List Nat).map (fun s => yearPfx fam year ++ pad6 s) := by
    rw [List.map_nil, List.filter_eq_nil_iff]
    intro c hc
    rw [hnone c hc]
    simp
  have := nextYearCode_canonical fam year codes [] hfilter (by intro s hs; cases hs)
  rw [if_pos rfl] at this
  exact this

/-- C2 witness: the amended theorem applied at a concrete canonical state
(one existing 2025 Member, suffix 5) and at a concrete prior-year state. -/
theorem yearCode_sequential_amended_witness :
    (∃ c1 c2 : String,
      nextYearCode "SHA" 2025 ["SHA/2025/000005"] = some c1 ∧
      c1 ∉ ["SHA/2025/000005"] ∧
      nextYearCode "SHA" 2025 (c1 :: ["SHA/2025/000005"]) = some c2 ∧ c1 ≠ c2) ∧
    nextYearCode "SHA" 2025 ["SHA/2024/000042"] = some (yearPfx "SHA" 2025 ++ pad6 1) :=
  ⟨yearCode_sequential_amended.1 "SHA" 2025 ["SHA/2025/000005"] [5]
      (by decide) (by decide),
    yearCode_sequential_amended.2.1 "SHA" 2025 ["SHA/2024/000042"] (by decide)⟩

/-- C1: the claim that every family finds the highest existing code
MATCHING THE PATTERN fails for the Employer (and HealthcareProvider)
generator, which takes the highest code over all rows and only then tests
the pattern: with `EMP/000003` present alongside the non-matching code
`EMP2024001` (the shape the repository seeding script itself creates,
seed_data.py line 213), which sorts above every `EMP/` code, the generator
restarts at `EMP/000001` although the highest matching code is
`EMP/000003` and the specification therefore requires `EMP/000004`. -/
theorem refCode_employer_counterexample :
    nextGlobalCode "EMP" ["EMP/000003", "EMP2024001"] = some "EMP/000001" ∧
    specNextCode "EMP/" ["EMP/000003", "EMP2024001"] = some "EMP/000004" ∧
    nextGlobalCode "EMP" ["EMP/000003", "EMP2024001"] ≠
      specNextCode "EMP/" ["EMP/000003", "EMP2024001"] := by
  refine ⟨by decide, by decide, by decide⟩

/-- C1 (amended): the year-scoped generators (Member, PreAuthorization,
Claim, Payment) implement the specified highest-matching-code rule
verbatim for every database state; the global generators (Employer,
HealthcareProvider) agree with the specified rule exactly on states in
which every existing code of the table starts with the family pattern,
because there the globally highest code is also the highest matching one
(and on an empty table both start the sequence at 1). -/
theorem refCode_generation_amended :
    (∀ (fam : String) (year : Nat) (codes : List String),
      nextYearCode fam year codes = specNextCode (yearPfx fam year) codes) ∧
    (∀ (fam : String) (codes : List String),
      (∀ c ∈ codes, codeStartsWith c (fam ++ "/") = true) →
      nextGlobalCode fam codes = specNextCode (fam ++ "/") codes) := by
  constructor
  · intro fam year codes
    rfl
  · intro fam codes h
    have hfilter : codes.filter (fun c => codeStartsWith c (fam ++ "/")) = codes :=
      List.filter_eq_self.mpr h
    have hdefL : nextGlobalCode fam codes =
        match maxCode codes with
        | none => some ((fam ++ "/") ++ pad6 1)
        | some last =>
          if codeStartsWith last (fam ++ "/") then
            (parseNatChars (afterLastSlash last.data)).map
              (fun k => (fam ++ "/") ++ pad6 (k + 1))
          else some ((fam ++ "/") ++ pad6 1) := rfl
    have hdefR : specNextCode (fam ++ "/") codes =
        match maxCode (codes.filter (fun c => codeStartsWith c (fam ++ "/"))) with
        | none => some ((fam ++ "/") ++ pad6 1)
        | some last =>
          (parseNatChars (afterLastSlash last.data)).map
            (fun k => (fam ++ "/") ++ pad6 (k + 1)) := rfl
    rw [hdefL, hdefR, hfilter]
    rcases hmax : maxCode codes with _ | m
    · rfl
    · have hm : codeStartsWith m (fam ++ "/") = true := h m (maxCode_mem codes m hmax)
      simp only [hm, reduceIte]

/-- C1 witness: the amended theorem applied at a concrete year-scoped state
and at a concrete all-matching Employer state. -/
theorem refCode_generation_amended_witness :
    nextYearCode "SHA" 2025 ["SHA/2025/000007"] =
      specNextCode (yearPfx "SHA" 2025) ["SHA/2025/000007"] ∧
    nextGlobalCode "EMP" ["EMP/000001", "EMP/000002"] =
      specNextCode ("EMP" ++ "/") ["EMP/000001", "EMP/000002"] :=
  ⟨refCode_generation_amended.1 "SHA" 2025 ["SHA/2025/000007"],
    refCode_generation_amended.2 "EMP" ["EMP/000001", "EMP/000002"] (by decide)⟩

/-- A concrete freshly submitted claim, used to instantiate theorems. -/
def sampleClaim : ClaimRec :=
  { claim_number := "CLM/2025/000001", status := "SUBMITTED", claimed_amount := 3500,
    approved_amount := none, rejected_amount := 0, copayment_amount := 0,
    review_date := none, approval_date := none, payment_date := none,
    rejection_reason := "", query_comments := "", reviewed_by := none,
    approved_by := none }

/-- A concrete PENDING pre-authorization with no approval stamps. -/
def samplePreauthPending : PreAuthRec :=
  { authorization_number := "AUTH/2025/000001", status := "PENDING",
    estimated_cost := 5000, approved_amount := none, approval_date := none,
    approved_by := none, rejection_reason := "", valid_until := none }

/-- A concrete already APPROVED pre-authorization. -/
def samplePreauthApproved : PreAuthRec :=
  { authorization_number := "AUTH/2025/000002", status := "APPROVED",
    estimated_cost := 8000, approved_amount := some 8000, approval_date := some 1,
    approved_by := some "officer", rejection_reason := "", valid_until := some 30 }

/-- A concrete contribution row. -/
def sampleContribution : ContributionRec :=
  { member := "M1", contribution_month := 202501, gross_salary := some 10000,
    contribution_amount := 300, contribution_rate := defaultContributionRate,
    transaction_reference := "TXN100000001", status := "PENDING" }

/-- C3: `mark_under_review` moves exactly SUBMITTED claims to UNDER_REVIEW
and stamps the review timestamp; `approve_claims` moves exactly
UNDER_REVIEW claims to APPROVED and stamps the approval timestamp and the
approver; a claim created in the default SUBMITTED status can therefore
pass through UNDER_REVIEW to APPROVED in that order, and a claim in any
other status is left completely unchanged by either action. -/
theorem claim_workflow_transitions :
    ∀ (c : ClaimRec) (now now2 : Nat) (user : String),
      claimDefaultStatus = "SUBMITTED" ∧
      (c.status = "SUBMITTED" →
        (markUnderReviewRow now c).status = "UNDER_REVIEW" ∧
        (markUnderReviewRow now c).review_date = some now) ∧
      (c.status ≠ "SUBMITTED" → markUnderReviewRow now c = c) ∧
      (c.status = "UNDER_REVIEW" →
        (approveClaimRow now user c).status = "APPROVED" ∧
        (approveClaimRow now user c).approval_date = some now ∧
        (approveClaimRow now user c).approved_by = some user) ∧
      (c.status ≠ "UNDER_REVIEW" → approveClaimRow now user c = c) ∧
      (c.status = "SUBMITTED" →
        (approveClaimRow now2 user (markUnderReviewRow now c)).status = "APPROVED" ∧
        (approveClaimRow now2 user (markUnderReviewRow now c)).review_date = some now ∧
        (approveClaimRow now2 user (markUnderReviewRow now c)).approval_date = some now2 ∧
        (approveClaimRow now2 user (markUnderReviewRow now c)).approved_by = some user) := by
  intro c now now2 user
  refine ⟨rfl, ?_, ?_, ?_, ?_, ?_⟩
  · intro h
    simp [markUnderReviewRow, h]
  · intro h
    simp [markUnderReviewRow, h]
  · intro h
    simp [approveClaimRow, h]
  · intro h
    simp [approveClaimRow, h]
  · intro h
    simp [markUnderReviewRow, approveClaimRow, h]

/-- C3 witness: the workflow theorem evaluated on a concrete freshly
submitted claim stepped through review and approval. -/
theorem claim_workflow_transitions_witness :
    (markUnderReviewRow 1 sampleClaim).status = "UNDER_REVIEW" ∧
    (approveClaimRow 2 "officer" (markUnderReviewRow 1 sampleClaim)).status =
      "APPROVED" ∧
    (approveClaimRow 2 "officer" (markUnderReviewRow 1 sampleClaim)).approved_by =
      some "officer" :=
  ⟨((claim_workflow_transitions sampleClaim 1 2 "officer").2.1 rfl).1,
    ((claim_workflow_transitions sampleClaim 1 2 "officer").2.2.2.2.2 rfl).1,
    ((claim_workflow_transitions sampleClaim 1 2 "officer").2.2.2.2.2 rfl).2.2.2⟩

/-- C4: `reject_claims` sets status REJECTED on every selected claim whose
status is not PAID, and leaves a PAID claim entirely unchanged, so its
status stays PAID. -/
theorem reject_claims_paid_guard :
    ∀ c : ClaimRec,
      (c.status ≠ "PAID" → (rejectClaimRow c).status = "REJECTED") ∧
      (c.status = "PAID" → rejectClaimRow c = c ∧ (rejectClaimRow c).status = "PAID") := by
  intro c
  constructor
  · intro h
    simp [rejectClaimRow, h]
  · intro h
    constructor
    · simp [rejectClaimRow, h]
    · simp [rejectClaimRow, h]

/-- C4 witness: the reject guard evaluated on a concrete SUBMITTED claim
and on a concrete PAID claim. -/
theorem reject_claims_paid_guard_witness :
    (rejectClaimRow sampleClaim).status = "REJECTED" ∧
    (rejectClaimRow { sampleClaim with status := "PAID" }).status = "PAID" :=
  ⟨(reject_claims_paid_guard sampleClaim).1 (by decide),
    ((reject_claims_paid_guard { sampleClaim with status := "PAID" }).2 rfl).2⟩

/-- C5: the pre-authorization approve action moves a PENDING record to
APPROVED, stamping approval_date and approved_by; a record in any other
status is silently left unchanged (no error raised); the bulk action
reports exactly the number of PENDING rows in the selection, and on the
concrete selection of one PENDING and one already APPROVED record it
reports exactly 1. -/
theorem preauth_approve_correct :
    ∀ (p : PreAuthRec) (qs : List PreAuthRec) (now : Nat) (user : String),
      (p.status = "PENDING" →
        (approvePreauthRow now user p).status = "APPROVED" ∧
        (approvePreauthRow now user p).approval_date = some now ∧
        (approvePreauthRow now user p).approved_by = some user) ∧
      (p.status ≠ "PENDING" → approvePreauthRow now user p = p) ∧
      (approvePreauthBulk now user qs).2 =
        (qs.filter (fun q => q.status == "PENDING")).length ∧
      (approvePreauthBulk 9 "officer"
        [samplePreauthPending, samplePreauthApproved]).2 = 1 := by
  intro p qs now user
  refine ⟨?_, ?_, rfl, ?_⟩
  · intro h
    simp [approvePreauthRow, h]
  · intro h
    simp [approvePreauthRow, h]
  · show (List.filter _ [samplePreauthPending, samplePreauthApproved]).length = 1
    rfl

/-- C5 witness: the approve action evaluated on the concrete PENDING and
APPROVED records of the scenario. -/
theorem preauth_approve_correct_witness :
    (approvePreauthRow 9 "officer" samplePreauthPending).status = "APPROVED" ∧
    approvePreauthRow 9 "officer" samplePreauthApproved = samplePreauthApproved ∧
    (approvePreauthBulk 9 "officer"
      [samplePreauthPending, samplePreauthApproved]).2 = 1 :=
  ⟨((preauth_approve_correct samplePreauthPending [] 9 "officer").1 rfl).1,
    (preauth_approve_correct samplePreauthApproved [] 9 "officer").2.1 (by decide),
    (preauth_approve_correct samplePreauthPending [] 9 "officer").2.2.2⟩

/-- C6: the claim that approving a PENDING pre-authorization populates
approved_amount and valid_until FAILS: the approve action writes only
status, approval_date and approved_by, so a PENDING record with null
approved_amount and null valid_until still has both null after the
transition to APPROVED, although its estimated cost is 5000. -/
theorem preauth_approved_amount_counterexample :
    samplePreauthPending.status = "PENDING" ∧
    samplePreauthPending.estimated_cost = 5000 ∧
    (approvePreauthRow 7 "officer" samplePreauthPending).status = "APPROVED" ∧
    (approvePreauthRow 7 "officer" samplePreauthPending).approved_amount = none ∧
    (approvePreauthRow 7 "officer" samplePreauthPending).valid_until = none := by
  refine ⟨rfl, rfl, ?_, ?_, ?_⟩
  · simp [approvePreauthRow, samplePreauthPending]
  · simp [approvePreauthRow, samplePreauthPending]
  · simp [approvePreauthRow, samplePreauthPending]

/-- C6 (amended): approving a PENDING pre-authorization sets status to
APPROVED and populates approval_date and approved_by ONLY; approved_amount
and valid_until are not written by the operation and keep whatever values
they had before (they are filled in manually through the admin form, or at
creation time by the seeding script for records born APPROVED). -/
theorem preauth_approved_amount_amended :
    ∀ (p : PreAuthRec) (now : Nat) (user : String),
      p.status = "PENDING" →
      (approvePreauthRow now user p).status = "APPROVED" ∧
      (approvePreauthRow now user p).approval_date = some now ∧
      (approvePreauthRow now user p).approved_by = some user ∧
      (approvePreauthRow now user p).approved_amount = p.approved_amount ∧
      (approvePreauthRow now user p).valid_until = p.valid_until := by
  intro p now user h
  simp [approvePreauthRow, h]

/-- C6 witness: the amended statement evaluated on the concrete PENDING
record. -/
theorem preauth_approved_amount_amended_witness :
    (approvePreauthRow 7 "officer" samplePreauthPending).status = "APPROVED" ∧
    (approvePreauthRow 7 "officer" samplePreauthPending).approved_amount =
      samplePreauthPending.approved_amount ∧
    (approvePreauthRow 7 "officer" samplePreauthPending).valid_until =
      samplePreauthPending.valid_until :=
  ⟨(preauth_approved_amount_amended samplePreauthPending 7 "officer" rfl).1,
    (preauth_approved_amount_amended samplePreauthPending 7 "officer" rfl).2.2.2.1,
    (preauth_approved_amount_amended samplePreauthPending 7 "officer" rfl).2.2.2.2⟩

/-- C7: under the unique_together constraint on (member,
contribution_month), inserting preserves pairwise key distinctness, and a
second submission for the same member and month fails with a uniqueness
violation instead of overwriting. -/
theorem contribution_unique_constraint :
    (∀ (db : List ContributionRec) (c : ContributionRec) (db2 : List ContributionRec),
      insertContribution db c = some db2 → contributionUniqueOk db →
      contributionUniqueOk db2) ∧
    (∀ (db : List ContributionRec) (c d : ContributionRec),
      d ∈ db → d.member = c.member → d.contribution_month = c.contribution_month →
      insertContribution db c = none) := by
  constructor
  · intro db c db2 hins hok
    unfold insertContribution at hins
    by_cases hany : db.any (fun d =>
        d.member == c.member && d.contribution_month == c.contribution_month) = true
    · rw [if_pos hany] at hins
      exact absurd hins (by simp)
    · rw [if_neg hany] at hins
      have hdb2 : db2 = c :: db := (Option.some_inj.mp hins).symm
      subst hdb2
      unfold contributionUniqueOk
      rw [List.pairwise_cons]
      refine ⟨?_, hok⟩
      intro d hd hkey
      apply hany
      rw [List.any_eq_true]
      refine ⟨d, hd, ?_⟩
      rw [Bool.and_eq_true, beq_iff_eq, beq_iff_eq]
      exact ⟨hkey.1.symm, hkey.2.symm⟩
  · intro db c d hd hm hmon
    unfold insertContribution
    rw [if_pos]
    rw [List.any_eq_true]
    refine ⟨d, hd, ?_⟩
    rw [Bool.and_eq_true, beq_iff_eq, beq_iff_eq]
    exact ⟨hm, hmon⟩

/-- C7 witness: inserting a fresh row keeps the table key-unique, and
re-submitting the same member and month fails. -/
theorem contribution_unique_constraint_witness :
    contributionUniqueOk [sampleContribution] ∧
    insertContribution [sampleContribution] sampleContribution = none :=
  ⟨contribution_unique_constraint.1 [] sampleContribution [sampleContribution]
      rfl List.Pairwise.nil,
    contribution_unique_constraint.2 [sampleContribution] sampleContribution
      sampleContribution (List.mem_singleton.mpr rfl) rfl rfl⟩

/-- C8: a gross salary of 10000 at the default 2.75 percent rate computes
to 275, below the 300 floor, and the amount computed by the repository is
clamped up to exactly 300; in general any computed amount below the floor
is stored as 300, and every amount the computation produces passes the
validation-layer floor `MinValueValidator(300.00)` (a validator, not a
database constraint). -/
theorem contribution_floor_correct :
    (defaultContributionRate / 100 : Rat) = 275 / 10000 ∧
    (10000 : Rat) * (275 / 10000) = 275 ∧
    (275 : Rat) < 300 ∧
    seedContributionAmount 10000 = 300 ∧
    contributionAmountValid 275 = false ∧
    (∀ gross : Rat, gross * (275 / 10000) < 300 → seedContributionAmount gross = 300) ∧
    (∀ gross : Rat, contributionAmountValid (seedContributionAmount gross) = true) := by
  refine ⟨?_, ?_, ?_, ?_, ?_, ?_, ?_⟩
  · norm_num [defaultContributionRate]
  · norm_num
  · norm_num
  · norm_num [seedContributionAmount, max_def]
  · norm_num [contributionAmountValid]
  · intro gross h
    unfold seedContributionAmount
    exact max_eq_left (le_of_lt h)
  · intro gross
    unfold contributionAmountValid seedContributionAmount
    exact decide_eq_true (le_max_left _ _)

/-- C8 witness: the clamping rule applied at the concrete 10000 salary,
whose computed 275 is below the floor, and the validator accepting the
result. -/
theorem contribution_floor_correct_witness :
    seedContributionAmount 10000 = 300 ∧
    contributionAmountValid (seedContributionAmount 10000) = true :=
  ⟨contribution_floor_correct.2.2.2.2.2.1 10000
      (lt_of_le_of_lt (le_of_eq contribution_floor_correct.2.1)
        contribution_floor_correct.2.2.1),
    contribution_floor_correct.2.2.2.2.2.2 10000⟩

/-- C9: the claim that claimed_amount equals the sum of the item
total_amounts FAILS on the code: the seeding path sets claimed_amount to
the sum of the selected services STANDARD TARIFFS (quantity-independent),
while each item total_amount is tariff times quantity; with one service of
tariff 1500 drawn at quantity 2, claimed_amount is 1500 but the sum of the
item totals is 3000. -/
theorem claim_totals_counterexample :
    seedClaimedAmount [1500] = 1500 ∧
    (mkSeedClaimItem 1500 2 none none).total_amount = 3000 ∧
    seedClaimedAmount [1500] ≠
      [(mkSeedClaimItem 1500 2 none none).total_amount].sum := by
  refine ⟨?_, ?_, ?_⟩
  · norm_num [seedClaimedAmount]
  · norm_num [mkSeedClaimItem]
  · norm_num [seedClaimedAmount, mkSeedClaimItem]

/-- C9 (amended): every seed-created claim item satisfies total_amount =
unit_price times quantity (this much of the claim holds, and nothing ever
recomputes the stored values later); claimed_amount equals the sum of the
item total_amounts exactly in the quantity-one case, and in particular a
claim over two services priced 1500 and 2000 at quantity 1 has
claimed_amount 3500, the sum of its two item totals. -/
theorem claim_totals_amended :
    (∀ (tariff : Rat) (q : Int) (aq : Option Int) (aa : Option Rat),
      (mkSeedClaimItem tariff q aq aa).total_amount =
        (mkSeedClaimItem tariff q aq aa).unit_price *
          ((mkSeedClaimItem tariff q aq aa).quantity : Rat)) ∧
    (∀ tariffs : List Rat,
      seedClaimedAmount tariffs =
        (tariffs.map (fun t => (mkSeedClaimItem t 1 none none).total_amount)).sum) ∧
    seedClaimedAmount [1500, 2000] = 3500 ∧
    seedClaimedAmount [1500, 2000] =
      [(mkSeedClaimItem 1500 1 none none).total_amount,
        (mkSeedClaimItem 2000 1 none none).total_amount].sum := by
  refine ⟨?_, ?_, ?_, ?_⟩
  · intro tariff q aq aa
    rfl
  · intro tariffs
    simp [seedClaimedAmount, mkSeedClaimItem]
  · norm_num [seedClaimedAmount]
  · norm_num [seedClaimedAmount, mkSeedClaimItem]

/-- C10: the bulk approve action on claims touches only the selected
UNDER_REVIEW rows, and there writes only status, approval_date and
approved_by; the claim-items table is untouched, a row that is unselected
or not UNDER_REVIEW is returned identically, and every other column
(claimed_amount, approved_amount, rejected_amount, copayment_amount,
review_date, payment_date, rejection_reason, query_comments, reviewed_by,
claim_number) is preserved on every row. -/
theorem approve_claims_frame :
    ∀ (now : Nat) (user : String) (sel : String → Bool) (st : AdminState),
      (approveClaimsAction now user sel st).1.claim_items = st.claim_items ∧
      (approveClaimsAction now user sel st).1.claims =
        st.claims.map (fun c =>
          if sel c.claim_number then approveClaimRow now user c else c) ∧
      (∀ c : ClaimRec, sel c.claim_number = false ∨ c.status ≠ "UNDER_REVIEW" →
        (if sel c.claim_number then approveClaimRow now user c else c) = c) ∧
      (∀ c : ClaimRec,
        (approveClaimRow now user c).claim_number = c.claim_number ∧
        (approveClaimRow now user c).claimed_amount = c.claimed_amount ∧
        (approveClaimRow now user c).approved_amount = c.approved_amount ∧
        (approveClaimRow now user c).rejected_amount = c.rejected_amount ∧
        (approveClaimRow now user c).copayment_amount = c.copayment_amount ∧
        (approveClaimRow now user c).review_date = c.review_date ∧
        (approveClaimRow now user c).payment_date = c.payment_date ∧
        (approveClaimRow now user c).rejection_reason = c.rejection_reason ∧
        (approveClaimRow now user c).query_comments = c.query_comments ∧
        (approveClaimRow now user c).reviewed_by = c.reviewed_by) := by
  intro now user sel st
  refine ⟨rfl, rfl, ?_, ?_⟩
  · intro c h
    rcases h with h | h
    · simp [h]
    · by_cases hsel : sel c.claim_number
      · simp [hsel, approveClaimRow, h]
      · simp [hsel]
  · intro c
    by_cases h : c.status = "UNDER_REVIEW" <;>
      simp [approveClaimRow, h]

/-- C10 witness: the frame theorem evaluated on a concrete one-claim state
with everything selected: items and non-matching rows are untouched and
the financial columns of an updated row are preserved. -/
theorem approve_claims_frame_witness :
    (approveClaimsAction 3 "officer" (fun _ => true)
      { claims := [sampleClaim], claim_items := ["item1"] }).1.claim_items =
        ["item1"] ∧
    (if (fun _ => true) sampleClaim.claim_number
      then approveClaimRow 3 "officer" sampleClaim else sampleClaim) = sampleClaim ∧
    (approveClaimRow 3 "officer"
      { sampleClaim with status := "UNDER_REVIEW" }).claimed_amount =
        ({ sampleClaim with status := "UNDER_REVIEW" } : ClaimRec).claimed_amount :=
  ⟨(approve_claims_frame 3 "officer" (fun _ => true)
      { claims := [sampleClaim], claim_items := ["item1"] }).1,
    (approve_claims_frame 3 "officer" (fun _ => true)
      { claims := [sampleClaim], claim_items := ["item1"] }).2.2.1 sampleClaim
      (Or.inr (by decide)),
    ((approve_claims_frame 3 "officer" (fun _ => true)
      { claims := [sampleClaim], claim_items := ["item1"] }).2.2.2
      { sampleClaim with status := "UNDER_REVIEW" }).2.1⟩
